import Mathlib

/-!
Verification of the reddit-to-llm thread pipeline (`src/App.tsx`).

The development shallowly embeds the core functions of the source file:
`normalizeToPostId`, `walkComments`, the statistics aggregation, the two
text formatters (`formatCommentLLM`, `formatCommentToon`), the three
renderers assembled in `fetchThread`, and the newline-collapsing pass.
Strings are modelled by Lean `String` (a list of characters), and the
JavaScript regular-expression passes by explicit character-list functions.
-/

namespace RedditToLLM

/-- JavaScript whitespace (the class matched by `\s` and removed by
`String.prototype.trim`): space, tab, LF, VT, FF, CR, NBSP, and the
Unicode space separators, line/paragraph separators and BOM. -/
def jsWS (c : Char) : Bool :=
  c == ' ' || c == '\t' || c == '\n' || c == '\r' ||
  c.toNat == 0x0B || c.toNat == 0x0C || c.toNat == 0xA0 || c.toNat == 0x1680 ||
  (0x2000 ≤ c.toNat && c.toNat ≤ 0x200A) || c.toNat == 0x2028 || c.toNat == 0x2029 ||
  c.toNat == 0x202F || c.toNat == 0x205F || c.toNat == 0x3000 || c.toNat == 0xFEFF

/-- `String.prototype.trim`: drop JavaScript whitespace from both ends. -/
def jsTrimList (l : List Char) : List Char :=
  ((l.dropWhile jsWS).reverse.dropWhile jsWS).reverse

/-- `input.trim()` on the string level. -/
def jsTrim (s : String) : String := String.mk (jsTrimList s.data)

/-- `s.includes(c)` for a single-character needle. -/
def strContains (s : String) (c : Char) : Bool := s.data.contains c

/-- JavaScript `x || d` for an optional string `x` (both `null`/absent and
the empty string are falsy). -/
def jsOrStr (v : Option String) (d : String) : String :=
  match v with
  | none => d
  | some s => if s.data.isEmpty then d else s

/-- Scan of `collapseRuns`: the flag records whether the previous
character belonged to a run of characters satisfying `p`; the single
replacement character `r` is emitted at the start of each run. -/
def collapseRunsAux (p : Char → Bool) (r : Char) : List Char → Bool → List Char
  | [], _ => []
  | c :: rest, inRun =>
    if p c then
      if inRun then collapseRunsAux p r rest true
      else r :: collapseRunsAux p r rest true
    else c :: collapseRunsAux p r rest false

/-- Replace every maximal run of characters satisfying `p` by the single
character `r`; this is `str.replace(regex, r)` for the regexes `/\s+/g`
(with `p := jsWS`, `r := ' '`) and `/\n{2,}/g` (runs of length one are
left alone by that regex, but collapsing them to one newline is the
identity on them, so the same function models it). -/
def collapseRuns (p : Char → Bool) (r : Char) (l : List Char) : List Char :=
  collapseRunsAux p r l false

/-- `llm.replace(/\n{2,}/g, "\n")`: collapse newline runs in a string. -/
def collapseNewlines (s : String) : String :=
  String.mk (collapseRuns (fun c => c == '\n') '\n' s.data)

/-- `body.replace(/\s+/g, " ").trim()` from `formatCommentToon`. -/
def collapseWSTrim (s : String) : String :=
  jsTrim (String.mk (collapseRuns jsWS ' ' s.data))

/-- Split a character list at a separator character (`pathname.split("/")`). -/
def splitOnChar (sep : Char) : List Char → List (List Char)
  | [] => [[]]
  | c :: rest =>
    match splitOnChar sep rest with
    | [] => [[]]
    | cur :: parts => if c = sep then [] :: cur :: parts else (c :: cur) :: parts

/-- `u.pathname.split("/")` on the string level. -/
def splitSlash (s : String) : List String :=
  (splitOnChar '/' s.data).map String.mk

/-- `Array.prototype.indexOf`: index of the first occurrence, if any. -/
def idxOfStr (k : String) : List String → Option Nat
  | [] => none
  | s :: rest => if s = k then some 0 else (idxOfStr k rest).map (· + 1)

/-- The slice of the platform URL value used by the source: its `pathname`. -/
structure URLm where
  pathname : String
deriving DecidableEq

/-- A scheme character: ASCII letter, digit, `+`, `-` or `.`. -/
def schemeChar (c : Char) : Bool :=
  ('a' ≤ c && c ≤ 'z') || ('A' ≤ c && c ≤ 'Z') || ('0' ≤ c && c ≤ '9') ||
  c == '+' || c == '-' || c == '.'

/-- Split a character list at the first occurrence of the literal `://`. -/
def splitAtMarker : List Char → Option (List Char × List Char)
  | [] => none
  | c :: rest =>
    if c = ':' ∧ rest.take 2 = ['/', '/'] then some ([], rest.drop 2)
    else
      match splitAtMarker rest with
      | none => none
      | some (pre, post) => some (c :: pre, post)

/-- Modelled from the spec: the source calls the platform's `new URL(...)`
parser, which is not part of this repository; per the spec the normalizer
shall "attempt to parse the input as an absolute URL", failing on inputs
that are not absolute URLs, and on success expose the URL path. This
models an absolute `scheme://host/path` URL: the parse succeeds when the
string has a nonempty scheme of scheme characters before the first `://`
and a nonempty authority after it; the pathname is the part of the
remainder from its first `/` on, cut before any `?` or `#`, and `/` when
the remainder has no `/`. -/
def tryParseURL (s : String) : Option URLm :=
  match splitAtMarker s.data with
  | none => none
  | some (scheme, rest) =>
    if scheme.isEmpty || !scheme.all schemeChar then none
    else
      let rest := rest.takeWhile (fun c => c ≠ '?' && c ≠ '#')
      let host := rest.takeWhile (fun c => c ≠ '/')
      let path := rest.dropWhile (fun c => c ≠ '/')
      if host.isEmpty then none
      else some ⟨if path.isEmpty then "/" else String.mk path⟩

/-- `u.pathname.split("/").filter(Boolean)`: the nonempty path segments. -/
def urlParts (u : URLm) : List String :=
  (splitSlash u.pathname).filter (fun t => !t.data.isEmpty)

/-- `normalizeToPostId` from `src/App.tsx` (lines 26–39): trim; a token
without `/` and without a space character is returned as a bare id;
otherwise parse as URL, split the pathname into nonempty segments and
return the segment after the first `"comments"` segment, `none` on any
failure (`return null`). The `!parts[idx + 1]` falsiness test covers both
a missing and an empty following segment. -/
def normalizeToPostId (input : String) : Option String :=
  let trimmed := jsTrim input
  if !strContains trimmed '/' && !strContains trimmed ' ' then some trimmed
  else
    match tryParseURL trimmed with
    | none => none
    | some u =>
      match idxOfStr "comments" (urlParts u) with
      | none => none
      | some idx =>
        match (urlParts u).get? (idx + 1) with
        | none => none
        | some nxt => if nxt.data.isEmpty then none else some nxt

/-- One flattened comment (`CommentItem` in `src/App.tsx`). The raw API
`score` may be absent (`null`), which the walk preserves as-is; only the
aggregation coerces it to `0`. -/
structure CommentItem where
  id : String
  author : String
  score : Option Int
  body : String
  parent_id : String
  depth : Nat
deriving DecidableEq

/-- A node of the API's nested reply listing: a comment node (`kind ===
"t1"`, with the fields `walkComments` reads and a possibly-empty list of
child replies standing for `replies?.data?.children`) or any other node
(e.g. a "load more" placeholder), which the walk skips together with
everything below it. -/
inductive RNode where
  | t1 (id : String) (author : Option String) (score : Option Int)
       (body : Option String) (parent_id : String) (replies : List RNode) : RNode
  | other (children : List RNode) : RNode

/-- The record `walkComments` pushes for a `t1` node at depth `d`:
`author || "[deleted]"` and `body || ""`, score and parent id raw. -/
def toItem (id : String) (author : Option String) (score : Option Int)
    (body : Option String) (pid : String) (d : Nat) : CommentItem :=
  { id := id, author := jsOrStr author "[deleted]", score := score,
    body := jsOrStr body "", parent_id := pid, depth := d }

/-- `walkComments` from `src/App.tsx` (lines 41–59), in accumulator-free
form: the list this function returns is exactly the sequence of `out.push`
calls the source performs, in order. Non-`t1` nodes are skipped
(`continue`), a `t1` node is pushed and then its children are walked at
`depth + 1`, then the walk continues with the remaining siblings. -/
def walkComments : List RNode → Nat → List CommentItem
  | [], _ => []
  | RNode.other _ :: rest, d => walkComments rest d
  | RNode.t1 id au sc bo pid reps :: rest, d =>
      toItem id au sc bo pid d :: (walkComments reps (d + 1) ++ walkComments rest d)

/-- The number of comment (`t1`) nodes of a forest, not descending into
non-comment nodes (the walk never visits their subtrees). -/
def countComments : List RNode → Nat
  | [] => 0
  | RNode.other _ :: rest => countComments rest
  | RNode.t1 _ _ _ _ _ reps :: rest => 1 + countComments reps + countComments rest

/-- `CommentAt items k n`: node `n` occurs in the forest `items` with
exactly `k` comment ancestors strictly above it along a chain of
comment-node `replies` edges. -/
inductive CommentAt : List RNode → Nat → RNode → Prop where
  | top {items : List RNode} {n : RNode} : n ∈ items → CommentAt items 0 n
  | nest {items : List RNode} {k : Nat} {n : RNode} {id : String}
      {au : Option String} {sc : Option Int} {bo : Option String}
      {pid : String} {reps : List RNode} :
      RNode.t1 id au sc bo pid reps ∈ items → CommentAt reps k n →
      CommentAt items (k + 1) n

/-- The post fields `fetchThread` reads from `data[0].data.children[0].data`. -/
structure Post where
  title : String
  subreddit : String
  author : Option String
  score : Int
  selftext : Option String
deriving DecidableEq

/-- `post.author ? ("u/" + post.author) : "[unknown]"`. -/
def postAuthorDisplay (p : Post) : String :=
  match p.author with
  | none => "[unknown]"
  | some a => if a.data.isEmpty then "[unknown]" else "u/" ++ a

/-- `const body = (post.selftext || "").trim()`. -/
def postBody (p : Post) : String := jsTrim (jsOrStr p.selftext "")

/-- `(c.score || 0)`: the summand the aggregation uses per comment
(`null` and `0` are both falsy and both contribute `0`). -/
def scoreOrZero (c : CommentItem) : Int :=
  match c.score with
  | none => 0
  | some n => n

/-- The `Stats` record of `src/App.tsx`; the two derived ratios are
rational numbers (JavaScript divisions of integers). -/
structure Stats where
  postScore : Int
  totalComments : Nat
  totalCommentScore : Int
  avgCommentScore : ℚ
  commentsPerScorePoint : ℚ
deriving DecidableEq

/-- The statistics aggregation of `fetchThread` (lines 126–141):
`reduce((sum, c) => sum + (c.score || 0), 0)`, `avgCommentScore` guarded
by `totalComments > 0`, `commentsPerScorePoint` guarded by
`totalCommentScore > 0`. -/
def computeStats (p : Post) (cs : List CommentItem) : Stats :=
  let totalComments := cs.length
  let totalCommentScore := cs.foldl (fun sum c => sum + scoreOrZero c) 0
  { postScore := p.score
    totalComments := totalComments
    totalCommentScore := totalCommentScore
    avgCommentScore :=
      if totalComments > 0 then (totalCommentScore : ℚ) / (totalComments : ℚ) else 0
    commentsPerScorePoint :=
      if totalCommentScore > 0 then (totalComments : ℚ) / (totalCommentScore : ℚ) else 0 }

/-- `formatCommentLLM` (lines 62–67). -/
def formatCommentLLM (c : CommentItem) : String :=
  let body := jsTrim c.body
  if body.data.isEmpty then ""
  else "[d" ++ Nat.repr c.depth ++ "] u/" ++ c.author ++ "\n" ++ body ++ "\n\n"

/-- `formatCommentToon` (lines 70–75). -/
def formatCommentToon (c : CommentItem) : String :=
  let oneLineBody := collapseWSTrim c.body
  if oneLineBody.data.isEmpty then ""
  else "d" ++ Nat.repr c.depth ++ " · u/" ++ c.author ++ ": " ++ oneLineBody ++ "\n"

/-- The `TITLE:`/`SUBREDDIT:`/`POST_AUTHOR:` header lines shared by the
two text renderers. -/
def headerBlock (p : Post) : String :=
  "TITLE: " ++ p.title ++ "\n" ++ "SUBREDDIT: r/" ++ p.subreddit ++ "\n" ++
  "POST_AUTHOR: " ++ postAuthorDisplay p ++ "\n\n"

/-- `body ? (body + "\n\n") : "(no body)\n\n"`. -/
def bodySection (p : Post) : String :=
  if (postBody p).data.isEmpty then "(no body)\n\n" else postBody p ++ "\n\n"

/-- The prefix of the LLM text before `COMMENTS:`. -/
def llmHeaderBody (p : Post) : String :=
  headerBlock p ++ "POST_BODY:\n" ++ bodySection p

/-- The prefix of the compact ("toon") text before `COMMENTS:`. -/
def toonHeaderBody (p : Post) : String :=
  headerBlock p ++ "POST_BODY: " ++ bodySection p

/-- The literal template lines the source appends after `COMMENTS:`
(`llm += "# [dX] u/author\n# comment text\n\n"`). -/
def llmLegend : String := "# [dX] u/author\n# comment text\n\n"

/-- The assembled LLM text before the newline-collapsing pass
(lines 151–162). -/
def llmPre (p : Post) (cs : List CommentItem) : String :=
  llmHeaderBody p ++ "COMMENTS:\n" ++ llmLegend ++ String.join (cs.map formatCommentLLM)

/-- The final LLM text (after `replace(/\n{2,}/g, "\n")`, line 164). -/
def llmText (p : Post) (cs : List CommentItem) : String :=
  collapseNewlines (llmPre p cs)

/-- The assembled compact text before the newline-collapsing pass
(lines 167–176). -/
def toonPre (p : Post) (cs : List CommentItem) : String :=
  toonHeaderBody p ++ "COMMENTS:\n" ++ String.join (cs.map formatCommentToon)

/-- The final compact text (line 177). -/
def toonText (p : Post) (cs : List CommentItem) : String :=
  collapseNewlines (toonPre p cs)

/-- The JSON values the JSON renderer can produce. -/
inductive JValue where
  | null : JValue
  | str (s : String) : JValue
  | num (q : ℚ) : JValue
  | arr (xs : List JValue) : JValue
  | obj (fields : List (String × JValue)) : JValue

/-- Field lookup on the list of key/value pairs of an object. -/
def lookupField : List (String × JValue) → String → Option JValue
  | [], _ => none
  | (k', v) :: rest, k => if k' = k then some v else lookupField rest k

/-- Field access on a JSON value (objects only). -/
def getField (j : JValue) (k : String) : Option JValue :=
  match j with
  | JValue.obj fs => lookupField fs k
  | _ => none

/-- The per-comment object of the JSON renderer (lines 185–192): fields
`id, author, body, score, depth, parent_id` in that order; a genuinely
missing score serializes as `null`. -/
def commentJson (c : CommentItem) : JValue :=
  JValue.obj
    [("id", JValue.str c.id), ("author", JValue.str c.author),
     ("body", JValue.str c.body),
     ("score", match c.score with | none => JValue.null | some n => JValue.num (n : ℚ)),
     ("depth", JValue.num (c.depth : ℚ)), ("parent_id", JValue.str c.parent_id)]

/-- The `stats` sub-object of the JSON renderer. -/
def statsJson (st : Stats) : JValue :=
  JValue.obj
    [("postScore", JValue.num (st.postScore : ℚ)),
     ("totalComments", JValue.num (st.totalComments : ℚ)),
     ("totalCommentScore", JValue.num (st.totalCommentScore : ℚ)),
     ("avgCommentScore", JValue.num st.avgCommentScore),
     ("commentsPerScorePoint", JValue.num st.commentsPerScorePoint)]

/-- The structured object `jsonObj` of the JSON renderer (lines 179–193);
`JSON.stringify(jsonObj, null, 2)` serializes exactly this value, and the
platform's `JSON.parse` of that serialization yields it back. -/
def jsonRender (p : Post) (st : Stats) (cs : List CommentItem) : JValue :=
  JValue.obj
    [("title", JValue.str p.title), ("subreddit", JValue.str p.subreddit),
     ("postAuthor", JValue.str (postAuthorDisplay p)),
     ("body", JValue.str (postBody p)), ("stats", statsJson st),
     ("comments", JValue.arr (cs.map commentJson))]

/-- `comments.sort((a, b) => b.score - a.score)`: sort by score
descending (JavaScript coerces a `null` score to `0` in the subtraction,
which `scoreOrZero` mirrors). -/
def sortComments (cs : List CommentItem) : List CommentItem :=
  cs.mergeSort (fun a b => decide (scoreOrZero b ≤ scoreOrZero a))

/-- The outputs `fetchThread` stores on success. -/
structure Outputs where
  stats : Stats
  txt : String
  toon : String
  json : JValue

/-- The success path of `fetchThread` after the payload is decoded
(lines 119–196): flatten, sort once, aggregate, render the one sorted
sequence three ways. -/
def buildOutputs (p : Post) (raw : List RNode) : Outputs :=
  let comments := sortComments (walkComments raw 0)
  let st := computeStats p comments
  { stats := st, txt := llmText p comments, toon := toonText p comments,
    json := jsonRender p st comments }

/-- The guard in `fetchThread` after normalization (`if (!postId)`,
lines 118–122): the fetch proceeds only when the normalizer returned a
truthy string, i.e. a nonempty identifier. -/
def fetchAccepts (raw : String) : Bool :=
  match normalizeToPostId raw with
  | none => false
  | some id => !id.data.isEmpty

/-- The guard in `handleClick` (lines 206–212): blank input is rejected
(`Enter a URL or Post ID.`) before `fetchThread` is called. -/
def handleClickAccepts (input : String) : Bool := !(jsTrim input).data.isEmpty

/-- The post of the spec's worked scenario: title `"Hello"`, subreddit
`"test"`, score `10`, no selftext. -/
def examplePost : Post :=
  { title := "Hello", subreddit := "test", author := some "alice", score := 10,
    selftext := none }

/-- A top-level comment with score `5`. -/
def cFive : CommentItem :=
  { id := "c1", author := "u1", score := some 5, body := "first", parent_id := "p0",
    depth := 0 }

/-- A top-level comment with score `-1`. -/
def cNegOne : CommentItem :=
  { id := "c2", author := "u2", score := some (-1), body := "second",
    parent_id := "p0", depth := 0 }

/-- A comment whose body trims to the empty string. -/
def cBlankBody : CommentItem :=
  { id := "c3", author := "u3", score := some 2, body := "  ", parent_id := "p0",
    depth := 0 }

/-- A small reply forest: a comment with one nested reply, and a
non-comment node holding a comment subtree that must be skipped. -/
def demoForest : List RNode :=
  [RNode.t1 "a" (some "u1") (some 5) (some "hello") "p0"
     [RNode.t1 "b" none (some (-1)) (some "world") "t1_a" []],
   RNode.other [RNode.t1 "c" (some "u3") (some 7) (some "zzz") "p0" []]]

/-! ## Lemmas about the tree flattener -/

/-- The walk emits one record per comment node of the forest. -/
theorem walk_length : ∀ (items : List RNode) (d : Nat),
    (walkComments items d).length = countComments items
  | [], _ => by simp [walkComments, countComments]
  | RNode.other cs :: rest, d => by
      rw [walkComments, countComments]
      exact walk_length rest d
  | RNode.t1 id au sc bo pid reps :: rest, d => by
      rw [walkComments, countComments]
      simp only [List.length_cons, List.length_append,
        walk_length reps (d + 1), walk_length rest d]
      omega

/-- Occurrence with `k` comment ancestors is monotone in the forest. -/
theorem CommentAt.mono {items items' : List RNode} {k : Nat} {n : RNode}
    (h : CommentAt items k n) (sub : ∀ x ∈ items, x ∈ items') :
    CommentAt items' k n := by
  cases h with
  | top hm => exact CommentAt.top (sub _ hm)
  | nest hm hk => exact CommentAt.nest (sub _ hm) hk

/-- Every record the walk emits at starting depth `d` comes from a comment
node occurring with some ancestor count `k`, and carries depth `d + k`. -/
theorem walk_mem : ∀ (items : List RNode) (d : Nat) (r : CommentItem),
    r ∈ walkComments items d →
    ∃ id au sc bo pid reps k,
      CommentAt items k (RNode.t1 id au sc bo pid reps) ∧
      r = toItem id au sc bo pid (d + k)
  | [], d, r => by simp [walkComments]
  | RNode.other cs :: rest, d, r => by
      rw [walkComments]
      intro hr
      obtain ⟨id, au, sc, bo, pid, reps, k, hat, hr⟩ := walk_mem rest d r hr
      exact ⟨id, au, sc, bo, pid, reps, k,
        hat.mono (fun x hx => List.mem_cons_of_mem _ hx), hr⟩
  | RNode.t1 id au sc bo pid reps :: rest, d, r => by
      rw [walkComments]
      intro hr
      rcases List.mem_cons.mp hr with hr | hr
      · exact ⟨id, au, sc, bo, pid, reps, 0,
          CommentAt.top (List.mem_cons_self _ _), by simpa using hr⟩
      rcases List.mem_append.mp hr with hr | hr
      · obtain ⟨id', au', sc', bo', pid', reps', k, hat, hr⟩ :=
          walk_mem reps (d + 1) r hr
        refine ⟨id', au', sc', bo', pid', reps', k + 1,
          CommentAt.nest (List.mem_cons_self _ _) hat, ?_⟩
        rw [hr]
        congr 1
        omega
      · obtain ⟨id', au', sc', bo', pid', reps', k, hat, hr⟩ :=
          walk_mem rest d r hr
        exact ⟨id', au', sc', bo', pid', reps', k,
          hat.mono (fun x hx => List.mem_cons_of_mem _ hx), hr⟩

/-- C5: the flattener emits exactly one record per comment node, in
depth-first pre-order (a comment node's record first, then the records of
its reply subtree, then the remaining siblings); non-comment nodes and
their whole subtrees contribute nothing; and every emitted record's depth
is the starting depth plus its number of comment ancestors inside the
walked forest. -/
theorem walkComments_flattens (items : List RNode) (d : Nat) :
    (walkComments items d).length = countComments items ∧
    (∀ r ∈ walkComments items d,
      ∃ id au sc bo pid reps k,
        CommentAt items k (RNode.t1 id au sc bo pid reps) ∧
        r = toItem id au sc bo pid (d + k)) ∧
    (∀ cs rest, walkComments (RNode.other cs :: rest) d = walkComments rest d) ∧
    (∀ id au sc bo pid reps rest,
      walkComments (RNode.t1 id au sc bo pid reps :: rest) d =
        toItem id au sc bo pid d ::
          (walkComments reps (d + 1) ++ walkComments rest d)) :=
  ⟨walk_length items d, fun r hr => walk_mem items d r hr,
    fun cs rest => by rw [walkComments],
    fun id au sc bo pid reps rest => by rw [walkComments]⟩

/-- Concrete instance of `walkComments_flattens` on `demoForest`: two
records (the skipped node's subtree contributes none), pre-order, with
depths 0 and 1. -/
theorem walkComments_flattens_witness :
    (walkComments demoForest 0).length = countComments demoForest ∧
    countComments demoForest = 2 ∧
    walkComments demoForest 0 =
      [toItem "a" (some "u1") (some 5) (some "hello") "p0" 0,
       toItem "b" none (some (-1)) (some "world") "t1_a" 1] := by
  refine ⟨(walkComments_flattens demoForest 0).1, ?_, ?_⟩
  · simp [demoForest, countComments]
  · simp [demoForest, walkComments]

/-! ## Lemmas about the run-collapsing pass -/

/-- Inside a run, the next emitted character never satisfies `p`. -/
theorem collapseRunsAux_head_true (p : Char → Bool) (r : Char) :
    ∀ (l : List Char) (c : Char),
      (collapseRunsAux p r l true).head? = some c → p c = false := by
  intro l
  induction l with
  | nil => intro c h; simp [collapseRunsAux] at h
  | cons c' rest ih =>
    intro c h
    rw [collapseRunsAux] at h
    by_cases hp : p c'
    · rw [if_pos hp, if_pos rfl] at h
      exact ih c h
    · rw [if_neg hp] at h
      simp only [List.head?_cons, Option.some.injEq] at h
      rw [← h]
      exact Bool.not_eq_true _ ▸ (by simpa using hp)

/-- In the output of the collapsing scan, a character satisfying `p` is
never immediately followed by another one. -/
theorem collapseRunsAux_chain (p : Char → Bool) (r : Char) :
    ∀ (l : List Char) (b : Bool),
      List.Chain' (fun a c => p a = true → p c = false)
        (collapseRunsAux p r l b) := by
  intro l
  induction l with
  | nil => intro b; simp [collapseRunsAux]
  | cons c rest ih =>
    intro b
    rw [collapseRunsAux]
    by_cases hp : p c
    · rw [if_pos hp]
      cases b with
      | true => simpa using ih true
      | false =>
        rw [if_neg (by simp)]
        rw [List.chain'_cons']
        exact ⟨fun y hy _ => collapseRunsAux_head_true p r rest y hy, ih true⟩
    · rw [if_neg hp]
      rw [List.chain'_cons']
      refine ⟨fun y _ hc => absurd hc (by simpa using hp), ih false⟩

/-- C7: the final LLM text is the global newline-collapsing pass applied
to the assembled string, and it never contains two consecutive newline
characters. -/
theorem llmText_no_double_newline (p : Post) (cs : List CommentItem) :
    llmText p cs = collapseNewlines (llmPre p cs) ∧
    List.Chain' (fun a b : Char => a = '\n' → b ≠ '\n') (llmText p cs).data := by
  refine ⟨rfl, ?_⟩
  have h := collapseRunsAux_chain (fun c => c == '\n') '\n' (llmPre p cs).data false
  refine h.imp (fun a b hab ha hb => ?_)
  have := hab (by simp [ha])
  simp [hb] at this

/-- Concrete instance of `llmText_no_double_newline`: the final LLM text
is the collapse of the assembled one, checked on the scenario post. -/
theorem llmText_no_double_newline_witness :
    llmText examplePost [cFive] = collapseNewlines (llmPre examplePost [cFive]) :=
  (llmText_no_double_newline examplePost [cFive]).1

/-! ## The statistics aggregation -/

/-- C1 counterexample: with a single comment of score `-1` the total is
`-1`, which is nonzero, yet the code yields `commentsPerScorePoint = 0`
(its guard is `totalCommentScore > 0`, not `≠ 0`), while
`totalComments / totalCommentScore = 1 / (-1) ≠ 0`. -/
theorem computeStats_cps_negative_cex :
    (computeStats examplePost [cNegOne]).totalCommentScore = -1 ∧
    (computeStats examplePost [cNegOne]).commentsPerScorePoint = 0 ∧
    (((computeStats examplePost [cNegOne]).totalComments : ℚ) /
        ((computeStats examplePost [cNegOne]).totalCommentScore : ℚ) ≠ 0) := by
  refine ⟨by decide, by decide, ?_⟩
  have h1 : ((computeStats examplePost [cNegOne]).totalComments : ℚ) = 1 := by
    norm_num [computeStats, cNegOne]
  have h2 : ((computeStats examplePost [cNegOne]).totalCommentScore : ℚ) = -1 := by
    norm_num [computeStats, cNegOne, scoreOrZero]
  rw [h1, h2]
  norm_num

/-- C1 (amended): `totalCommentScore` is the sum of the null-coerced
scores; `avgCommentScore` is `totalCommentScore / totalComments` when
`totalComments > 0` and `0` otherwise; `commentsPerScorePoint` is
`totalComments / totalCommentScore` when `totalCommentScore > 0` and `0`
otherwise — in particular it is `0`, not the quotient, on a negative
total. -/
theorem computeStats_spec (p : Post) (cs : List CommentItem) :
    (computeStats p cs).postScore = p.score ∧
    (computeStats p cs).totalComments = cs.length ∧
    (computeStats p cs).totalCommentScore = (cs.map scoreOrZero).sum ∧
    (cs.length = 0 → (computeStats p cs).avgCommentScore = 0) ∧
    (0 < cs.length →
      (computeStats p cs).avgCommentScore =
        (((cs.map scoreOrZero).sum : Int) : ℚ) / (cs.length : ℚ)) ∧
    (0 < (cs.map scoreOrZero).sum →
      (computeStats p cs).commentsPerScorePoint =
        (cs.length : ℚ) / (((cs.map scoreOrZero).sum : Int) : ℚ)) ∧
    ((cs.map scoreOrZero).sum ≤ 0 →
      (computeStats p cs).commentsPerScorePoint = 0) := by
  have hsum : cs.foldl (fun sum c => sum + scoreOrZero c) 0 =
      (cs.map scoreOrZero).sum := by
    rw [List.sum_eq_foldl, List.foldl_map]
  refine ⟨rfl, rfl, by simp [computeStats, hsum], ?_, ?_, ?_, ?_⟩
  · intro h
    simp [computeStats, h]
  · intro h
    simp [computeStats, hsum, Nat.pos_iff_ne_zero.mp h]
  · intro h
    simp [computeStats, hsum]
    intro hc
    omega
  · intro h
    have : ¬ (0 : Int) < (cs.map scoreOrZero).sum := by omega
    simp [computeStats, hsum, this]

/-- Concrete instance of `computeStats_spec`, the spec's worked scenario:
scores `5` and `-1` give total `4`, average `2`, and half a comment per
score point. -/
theorem computeStats_spec_witness :
    (computeStats examplePost [cFive, cNegOne]).totalCommentScore = 4 ∧
    (computeStats examplePost [cFive, cNegOne]).avgCommentScore = 2 ∧
    (computeStats examplePost [cFive, cNegOne]).commentsPerScorePoint = 1 / 2 := by
  have h := computeStats_spec examplePost [cFive, cNegOne]
  refine ⟨by rw [h.2.2.1]; decide, ?_, ?_⟩
  · rw [h.2.2.2.2.1 (by decide)]
    norm_num [cFive, cNegOne, scoreOrZero]
  · rw [h.2.2.2.2.2.1 (by decide)]
    norm_num [cFive, cNegOne, scoreOrZero]

/-! ## The identifier normalizer: bare tokens -/

/-- The bare-token clause as the spec states it: a trimmed input with no
`/` and no whitespace character of any kind is returned unchanged, and
any other input goes to the URL parse, failure of which yields `none`. -/
def specBareTokenClause (s : String) : Prop :=
  ((!strContains (jsTrim s) '/' && !(jsTrim s).data.any jsWS) = true →
    normalizeToPostId s = some (jsTrim s)) ∧
  ((!strContains (jsTrim s) '/' && !(jsTrim s).data.any jsWS) = false →
    tryParseURL (jsTrim s) = none → normalizeToPostId s = none)

/-- C2 counterexample: the input `"a<TAB>b"` trims to itself, contains a
whitespace character (the tab) and no slash, so the clause demands the
URL branch and `none`; the code only tests for the space character and
returns the token unchanged. -/
theorem normalizeToPostId_tab_cex : ¬ specBareTokenClause "a\tb" := by
  unfold specBareTokenClause
  decide

/-- C2 (amended): the bare-token test is on the literal space character
only — a trimmed input with no `/` and no space (U+0020) is returned
unchanged (even when it contains other whitespace such as a tab), and a
trimmed input with a `/` or a space goes to the URL parse, whose failure
yields `none`. -/
theorem normalizeToPostId_bare (s : String) :
    (strContains (jsTrim s) '/' = false → strContains (jsTrim s) ' ' = false →
      normalizeToPostId s = some (jsTrim s)) ∧
    ((strContains (jsTrim s) '/' = true ∨ strContains (jsTrim s) ' ' = true) →
      tryParseURL (jsTrim s) = none → normalizeToPostId s = none) := by
  constructor
  · intro h1 h2
    simp [normalizeToPostId, h1, h2]
  · rintro (h | h) hp
    · simp [normalizeToPostId, h, hp]
    · simp [normalizeToPostId, h, hp]

/-- Concrete instances of `normalizeToPostId_bare`: the bare token
`"abc123"` is returned unchanged, and `"not a url"` (a space, no parsable
URL) is rejected. -/
theorem normalizeToPostId_bare_witness :
    normalizeToPostId "abc123" = some "abc123" ∧
    normalizeToPostId "not a url" = none := by
  constructor
  · have h := (normalizeToPostId_bare "abc123").1 (by decide) (by decide)
    rw [h]; decide
  · exact (normalizeToPostId_bare "not a url").2 (Or.inr (by decide)) (by decide)

/-! ## Blank input -/

/-- C10 counterexample: a blank value (here three spaces, truthy as a
query parameter) does reach the normalizer and is returned as the empty
identifier, but it does not proceed past normalization: the orchestrator's
`if (!postId)` falsiness guard rejects the empty string and the fetch is
refused. -/
theorem blank_autoload_cex :
    normalizeToPostId "   " = some "" ∧ fetchAccepts "   " = false := by decide

/-- C10 (amended): for blank input the normalizer succeeds with the empty
identifier (no failure signal), and the user-trigger guard rejects blank
input before normalization; but a blank value arriving through the
auto-load path is still rejected — the `if (!postId)` guard after
normalization treats the empty identifier as invalid, so the fetch does
not proceed. -/
theorem blank_input_handling (s : String) (h : jsTrim s = "") :
    normalizeToPostId s = some "" ∧
    handleClickAccepts s = false ∧
    fetchAccepts s = false := by
  have h1 : normalizeToPostId s = some "" := by
    simp [normalizeToPostId, h, strContains]
  refine ⟨h1, ?_, ?_⟩
  · simp [handleClickAccepts, h]
  · simp [fetchAccepts, h1]

/-- Concrete instance of `blank_input_handling` at the all-spaces input. -/
theorem blank_input_handling_witness :
    normalizeToPostId "  " = some "" ∧
    handleClickAccepts "  " = false ∧
    fetchAccepts "  " = false :=
  blank_input_handling "  " (by decide)

/-! ## The LLM-text renderer -/

/-- C3 counterexample: on the scenario post with no comments, the
assembled LLM text is not the header/body/`COMMENTS:` blocks alone — the
source also inserts the literal template lines
`# [dX] u/author` and `# comment text` between the `COMMENTS:` heading
and the comment blocks. -/
theorem llmPre_legend_cex :
    llmPre examplePost [] ≠
      llmHeaderBody examplePost ++ "COMMENTS:\n" ++
        String.join (List.map formatCommentLLM []) := by decide

/-- C3 (amended): before the newline-collapsing pass the LLM text is
exactly the `TITLE:`/`SUBREDDIT:` (with the `r/` marker)/`POST_AUTHOR:`
header, the `POST_BODY:` section with the trimmed self-text or the
`(no body)` sentinel, the `COMMENTS:` heading followed first by the two
literal template lines `# [dX] u/author` / `# comment text`, and then the
comment blocks; each block is the `[d<N>]`-and-author line followed by
the comment's trimmed body, and a comment whose trimmed body is empty
contributes the empty string. -/
theorem llmPre_spec (p : Post) (cs : List CommentItem) :
    llmPre p cs =
      llmHeaderBody p ++ "COMMENTS:\n" ++ llmLegend ++
        String.join (cs.map formatCommentLLM) ∧
    llmHeaderBody p = headerBlock p ++ "POST_BODY:\n" ++ bodySection p ∧
    headerBlock p =
      "TITLE: " ++ p.title ++ "\n" ++ "SUBREDDIT: r/" ++ p.subreddit ++ "\n" ++
      "POST_AUTHOR: " ++ postAuthorDisplay p ++ "\n\n" ∧
    bodySection p =
      (if (postBody p).data.isEmpty then "(no body)\n\n"
       else postBody p ++ "\n\n") ∧
    llmLegend = "# [dX] u/author\n# comment text\n\n" ∧
    (∀ c : CommentItem,
      (jsTrim c.body).data.isEmpty = true → formatCommentLLM c = "") ∧
    (∀ c : CommentItem,
      (jsTrim c.body).data.isEmpty = false →
        formatCommentLLM c =
          "[d" ++ Nat.repr c.depth ++ "] u/" ++ c.author ++ "\n" ++
            jsTrim c.body ++ "\n\n") := by
  refine ⟨rfl, rfl, rfl, rfl, rfl, ?_, ?_⟩
  · intro c h
    simp [formatCommentLLM, h]
  · intro c h
    simp [formatCommentLLM, h]

/-- Concrete instances of `llmPre_spec`: a whitespace-only body renders
as the empty string, and a nonempty comment renders as its labelled
block. -/
theorem llmPre_spec_witness :
    formatCommentLLM cBlankBody = "" ∧
    formatCommentLLM cFive = "[d0] u/u1\nfirst\n\n" := by
  have h := llmPre_spec examplePost [cBlankBody, cFive]
  constructor
  · exact h.2.2.2.2.2.1 cBlankBody (by decide)
  · rw [h.2.2.2.2.2.2 cFive (by decide)]
    decide

/-! ## The compact-text renderer -/

/-- C4 counterexample: the compact renderer's header-and-body prefix is
not the same as the LLM renderer's — the compact form writes
`POST_BODY: ` with the body inline after the space, while the LLM form
writes `POST_BODY:` followed by a newline. -/
theorem toonHeaderBody_cex :
    toonHeaderBody examplePost ≠ llmHeaderBody examplePost := by decide

/-- C4 (amended): the compact text has the same
`TITLE:`/`SUBREDDIT:`/`POST_AUTHOR:` header block as the LLM text, but
its body section puts the body inline after `POST_BODY: ` (a space
instead of the LLM form's newline after the colon); then one single line
per comment with the depth label, middle dot, author, colon, and the
body with every whitespace run collapsed to one space and surrounding
whitespace trimmed — `"a\n\n\n\nb"` collapses to `"a b"` — and a comment
whose collapsed body is empty contributes nothing. -/
theorem toonPre_spec (p : Post) (cs : List CommentItem) :
    toonPre p cs =
      toonHeaderBody p ++ "COMMENTS:\n" ++
        String.join (cs.map formatCommentToon) ∧
    toonHeaderBody p = headerBlock p ++ "POST_BODY: " ++ bodySection p ∧
    collapseWSTrim "a\n\n\n\nb" = "a b" ∧
    (∀ c : CommentItem,
      (collapseWSTrim c.body).data.isEmpty = true → formatCommentToon c = "") ∧
    (∀ c : CommentItem,
      (collapseWSTrim c.body).data.isEmpty = false →
        formatCommentToon c =
          "d" ++ Nat.repr c.depth ++ " · u/" ++ c.author ++ ": " ++
            collapseWSTrim c.body ++ "\n") := by
  refine ⟨rfl, rfl, by decide, ?_, ?_⟩
  · intro c h
    simp [formatCommentToon, h]
  · intro c h
    simp [formatCommentToon, h]

/-- Concrete instances of `toonPre_spec`: the multi-newline body collapses
to a single-space separation, and a whitespace-only body contributes
nothing. -/
theorem toonPre_spec_witness :
    collapseWSTrim "a\n\n\n\nb" = "a b" ∧
    formatCommentToon cBlankBody = "" := by
  have h := toonPre_spec examplePost [cBlankBody]
  exact ⟨h.2.2.1, h.2.2.2.1 cBlankBody (by decide)⟩

/-! ## The identifier normalizer: URLs -/

/-- A successful marker split reassembles around the literal `://`. -/
theorem splitAtMarker_some_structure :
    ∀ (l pre post : List Char), splitAtMarker l = some (pre, post) →
      l = pre ++ ':' :: '/' :: '/' :: post := by
  intro l
  induction l with
  | nil => intro pre post h; simp [splitAtMarker] at h
  | cons c rest ih =>
    intro pre post h
    rw [splitAtMarker] at h
    split at h
    · next hc =>
        obtain ⟨hc1, hc2⟩ := hc
        simp only [Option.some.injEq, Prod.mk.injEq] at h
        obtain ⟨h1, h2⟩ := h
        subst h1
        subst h2
        subst hc1
        have : rest.take 2 ++ rest.drop 2 = rest := List.take_append_drop 2 rest
        rw [hc2] at this
        simpa using this.symm
    · next hc =>
        cases hm : splitAtMarker rest with
        | none => rw [hm] at h; simp at h
        | some pr =>
          obtain ⟨pre', post'⟩ := pr
          rw [hm] at h
          simp only [Option.some.injEq, Prod.mk.injEq] at h
          obtain ⟨h1, h2⟩ := h
          rw [← h1, ← h2, ih pre' post' hm]
          rfl

/-- An input that parses as a URL contains a slash, so the normalizer
takes its URL branch on it. -/
theorem tryParseURL_contains_slash (t : String) (u : URLm)
    (h : tryParseURL t = some u) : strContains t '/' = true := by
  rw [tryParseURL] at h
  cases hm : splitAtMarker t.data with
  | none => rw [hm] at h; simp at h
  | some pr =>
    obtain ⟨pre, post⟩ := pr
    have hstruct := splitAtMarker_some_structure t.data pre post hm
    rw [strContains, hstruct]
    simp

/-- `indexOf` really points at an occurrence of the key. -/
theorem idxOfStr_get? (k : String) :
    ∀ (l : List String) (i : Nat), idxOfStr k l = some i → l.get? i = some k := by
  intro l
  induction l with
  | nil => intro i h; simp [idxOfStr] at h
  | cons s rest ih =>
    intro i h
    rw [idxOfStr] at h
    split at h
    · next hs =>
        simp only [Option.some.injEq] at h
        subst h
        simpa using hs
    · next hs =>
        cases hm : idxOfStr k rest with
        | none => rw [hm] at h; simp at h
        | some j =>
          rw [hm] at h
          simp only [Option.map_some', Option.some.injEq] at h
          subst h
          simpa using ih j hm

/-- C6: when the trimmed input parses as an absolute URL, the normalizer
returns exactly the nonempty path segment immediately following the first
segment equal to `"comments"`, and returns `none` precisely when no
`"comments"` segment exists or it is the final segment. -/
theorem normalizeToPostId_url (s : String) (u : URLm)
    (h : tryParseURL (jsTrim s) = some u) :
    (idxOfStr "comments" (urlParts u) = none → normalizeToPostId s = none) ∧
    (∀ i, idxOfStr "comments" (urlParts u) = some i →
      (urlParts u).get? i = some "comments" ∧
      ((urlParts u).get? (i + 1) = none → normalizeToPostId s = none) ∧
      (∀ nxt, (urlParts u).get? (i + 1) = some nxt →
        normalizeToPostId s = some nxt ∧ nxt.data.isEmpty = false)) := by
  have hsl : strContains (jsTrim s) '/' = true :=
    tryParseURL_contains_slash (jsTrim s) u h
  constructor
  · intro hidx
    simp [normalizeToPostId, hsl, h, hidx]
  · intro i hidx
    refine ⟨idxOfStr_get? "comments" (urlParts u) i hidx, ?_, ?_⟩
    · intro hnone
      rw [List.get?_eq_getElem?] at hnone
      simp [normalizeToPostId, hsl, h, hidx, hnone]
    · intro nxt hnxt
      have hmem : nxt ∈ urlParts u := List.get?_mem hnxt
      have hne' : nxt.data.isEmpty = false := by
        have h2 := hmem
        rw [urlParts] at h2
        have h3 := List.of_mem_filter h2
        simpa using h3
      rw [List.get?_eq_getElem?] at hnxt
      constructor
      · simp [normalizeToPostId, hsl, h, hidx, hnxt, hne']
      · exact hne'

/-- Concrete instance of `normalizeToPostId_url`, the spec's scenario:
`"https://example.com/r/test/comments/abc123/title_slug/"` normalizes to
`"abc123"`. -/
theorem normalizeToPostId_url_witness :
    tryParseURL (jsTrim "https://example.com/r/test/comments/abc123/title_slug/") =
      some ⟨"/r/test/comments/abc123/title_slug/"⟩ ∧
    normalizeToPostId "https://example.com/r/test/comments/abc123/title_slug/" =
      some "abc123" := by
  have h := normalizeToPostId_url
    "https://example.com/r/test/comments/abc123/title_slug/"
    ⟨"/r/test/comments/abc123/title_slug/"⟩ (by decide)
  exact ⟨by decide, ((h.2 2 (by decide)).2.2 "abc123" (by decide)).1⟩

/-! ## The JSON renderer -/

/-- C8: the structured value the JSON renderer serializes (and the
platform parse of that serialization reproduces) carries the comment
sequence faithfully: its `comments` field is the array of per-comment
objects, of the same length as the input, whose `i`-th element is built
from the `i`-th record; and when a record carries an integer score, its
object's `score` and `depth` fields hold exactly that score and depth. -/
theorem jsonRender_roundtrip (p : Post) (st : Stats) (cs : List CommentItem)
    (h : ∀ c ∈ cs, c.score.isSome) :
    getField (jsonRender p st cs) "comments" =
      some (JValue.arr (cs.map commentJson)) ∧
    (cs.map commentJson).length = cs.length ∧
    (∀ i (hi : i < cs.length),
      (cs.map commentJson).get? i = some (commentJson (cs.get ⟨i, hi⟩))) ∧
    (∀ c ∈ cs, ∃ n : Int, c.score = some n ∧
      getField (commentJson c) "score" = some (JValue.num (n : ℚ)) ∧
      getField (commentJson c) "depth" = some (JValue.num (c.depth : ℚ))) := by
  refine ⟨rfl, List.length_map _ _, ?_, ?_⟩
  · intro i hi
    rw [List.get?_eq_getElem?, List.getElem?_map, List.getElem?_eq_getElem hi]
    rfl
  · intro c hc
    obtain ⟨n, hn⟩ := Option.isSome_iff_exists.mp (h c hc)
    refine ⟨n, hn, ?_, rfl⟩
    simp [commentJson, getField, lookupField, hn]

/-- Concrete instance of `jsonRender_roundtrip` on a one-comment thread:
the `comments` field is the singleton array, and the score `5` round
trips into the `score` field. -/
theorem jsonRender_roundtrip_witness :
    (∀ c ∈ [cFive], c.score.isSome) ∧
    getField (jsonRender examplePost (computeStats examplePost [cFive]) [cFive])
        "comments" = some (JValue.arr [commentJson cFive]) ∧
    getField (commentJson cFive) "score" = some (JValue.num (5 : ℚ)) := by
  have h := jsonRender_roundtrip examplePost (computeStats examplePost [cFive])
    [cFive] (by decide)
  refine ⟨by decide, by rw [h.1]; rfl, ?_⟩
  obtain ⟨n, hn, hs, _⟩ := h.2.2.2 cFive (List.mem_singleton.mpr rfl)
  have hc : cFive.score = some 5 := rfl
  rw [hc] at hn
  rw [← Option.some.inj hn] at hs
  exact hs

/-! ## The orchestrator's sort -/

/-- C9: the orchestrator's single sort step yields a sequence whose
(null-coerced) scores are non-increasing, it is a permutation of the
flattened input, and this one sorted sequence is the input shared by all
three renderers of `buildOutputs`. -/
theorem sortComments_spec (p : Post) (raw : List RNode) (cs : List CommentItem)
    (_h : ∀ c ∈ cs, c.score.isSome) :
    List.Pairwise (fun a b => scoreOrZero b ≤ scoreOrZero a) (sortComments cs) ∧
    (sortComments cs).Perm cs ∧
    buildOutputs p raw =
      { stats := computeStats p (sortComments (walkComments raw 0)),
        txt := llmText p (sortComments (walkComments raw 0)),
        toon := toonText p (sortComments (walkComments raw 0)),
        json := jsonRender p (computeStats p (sortComments (walkComments raw 0)))
                  (sortComments (walkComments raw 0)) } := by
  refine ⟨?_, List.mergeSort_perm cs _, rfl⟩
  have htrans : ∀ a b c : CommentItem,
      decide (scoreOrZero b ≤ scoreOrZero a) = true →
      decide (scoreOrZero c ≤ scoreOrZero b) = true →
      decide (scoreOrZero c ≤ scoreOrZero a) = true := by
    intro a b c hab hbc
    simp only [decide_eq_true_eq] at hab hbc ⊢
    omega
  have htotal : ∀ a b : CommentItem,
      (decide (scoreOrZero b ≤ scoreOrZero a) ||
        decide (scoreOrZero a ≤ scoreOrZero b)) = true := by
    intro a b
    simp only [Bool.or_eq_true, decide_eq_true_eq]
    omega
  have hs := List.sorted_mergeSort htrans htotal cs
  exact hs.imp (fun hab => by simpa using hab)

/-- Concrete instance of `sortComments_spec`, the spec's scenario: the
two top-level comments with scores `5` and `-1` sort with the score-`5`
comment first. -/
theorem sortComments_spec_witness :
    (∀ c ∈ [cNegOne, cFive], c.score.isSome) ∧
    List.Pairwise (fun a b => scoreOrZero b ≤ scoreOrZero a)
      (sortComments [cNegOne, cFive]) ∧
    sortComments [cNegOne, cFive] = [cFive, cNegOne] := by
  have h := sortComments_spec examplePost [] [cNegOne, cFive] (by decide)
  refine ⟨by decide, h.1, ?_⟩
  simp [sortComments, List.mergeSort, cFive, cNegOne, scoreOrZero]

end RedditToLLM
